import Mathlib

/-
Verification development for the service-orchestration core of the
ai-engineer-toolset repository: a shallow embedding in Lean 4 of the
data model (cli/services/models.py), the health monitor
(cli/services/health.py), the lifecycle controller
(cli/services/lifecycle.py), the registry (cli/services/registry.py)
and the env-file reader/writer (cli/screens/config_editor.py),
together with proofs about the embedded operations.

External effects (subprocess runs, the filesystem, HTTP probes) are
modelled by explicit environment records carrying the outcome each
effect would produce; the Python functions become total Lean functions
of those environments.  A Python function that can raise across its
boundary is embedded with result type Except String.
-/

namespace Toolset

/-! Python string helpers.  Python str.strip / str.rstrip remove the
whitespace characters space, tab, newline, carriage return, vertical
tab and form feed from the ends of a string. -/

def isPyWs (c : Char) : Bool :=
  c = ' ' || c = '\t' || c = '\n' || c = '\r' || c = Char.ofNat 11 || c = Char.ofNat 12

def stripChars (l : List Char) : List Char :=
  ((l.dropWhile isPyWs).reverse.dropWhile isPyWs).reverse

def rstripChars (l : List Char) : List Char :=
  (l.reverse.dropWhile isPyWs).reverse

def pyStrip (s : String) : String := ⟨stripChars s.data⟩

def pyRstrip (s : String) : String := ⟨rstripChars s.data⟩

/-- Lexicographic code-point comparison of character lists, the order
Python uses to compare strings (and Paths sharing a parent). -/
def charsLe : List Char → List Char → Bool
  | [], _ => true
  | _ :: _, [] => false
  | a :: as, b :: bs =>
      if a.toNat < b.toNat then true
      else if b.toNat < a.toNat then false
      else charsLe as bs

/-- Python string less-or-equal. -/
def pyStrLe (a b : String) : Bool := charsLe a.data b.data

/-- Truthiness of an optional Python string: None and the empty string
are falsy, any other string is truthy. -/
def optTruthy : Option String → Bool
  | none => false
  | some s => s ≠ ""

/-! Association lists with string keys model Python dicts: `alookup` is
membership/indexing, `aupsert` is `d[k] = v` (an existing key keeps its
position and gets the new value; a new key is appended). -/

def alookup {α : Type} (k : String) : List (String × α) → Option α
  | [] => none
  | (k', v) :: t => if k' = k then some v else alookup k t

def aupsert {α : Type} (k : String) (v : α) : List (String × α) → List (String × α)
  | [] => [(k, v)]
  | (k', v') :: t => if k' = k then (k, v) :: t else (k', v') :: aupsert k v t

/-! Data model, from cli/services/models.py. -/

/-- ServiceStatus enumeration (models.py lines 8-16). -/
inductive ServiceStatus where
  | not_installed
  | stopped
  | starting
  | running
  | unhealthy
  | error
deriving DecidableEq, Repr

/-- A filesystem path, as a list of components; models pathlib.Path. -/
structure FsPath where
  parts : List String
deriving DecidableEq, Repr

/-- Path.name: the final component. -/
def FsPath.name (p : FsPath) : String := p.parts.getLastD ""

/-- The string form of a path, as Python str(Path) renders it. -/
def FsPath.render (p : FsPath) : String := String.intercalate "/" p.parts

/-- path / component. -/
def FsPath.child (p : FsPath) (c : String) : FsPath := ⟨p.parts ++ [c]⟩

structure VendorConfig where
  url : String
  ref : String
deriving DecidableEq, Repr

structure PortConfig where
  name : String
  port : Int
  health_endpoint : Option String := none
deriving DecidableEq, Repr

structure EnvVarConfig where
  name : String
  required : Bool := false
  secret : Bool := false
  default : Option String := none
  description : Option String := none
deriving DecidableEq, Repr

structure LifecycleCommands where
  start : Option String := none
  stop : Option String := none
  restart : Option String := none
  install : Option String := none
  logs : Option String := none
  status : Option String := none
deriving DecidableEq, Repr

structure ServiceConfig where
  name : String
  description : String
  category : String
  path : FsPath
  vendor : Option VendorConfig := none
  ports : List PortConfig := []
  env_vars : List EnvVarConfig := []
  system_dependencies : List String := []
  service_dependencies : List String := []
  notes : List (String × String) := []
  lifecycle : LifecycleCommands := {}
deriving DecidableEq, Repr

/-- ServiceConfig.dir_name: the directory name, used as the service id. -/
def ServiceConfig.dir_name (c : ServiceConfig) : String := c.path.name

/-- ServiceConfig.primary_port: the first port with a health endpoint,
else the first port, else none (models.py lines 107-112). -/
def ServiceConfig.primary_port (c : ServiceConfig) : Option PortConfig :=
  match c.ports.find? (fun p => optTruthy p.health_endpoint) with
  | some p => some p
  | none => c.ports.head?

/-! Outcomes of external effects. -/

/-- Outcome of one subprocess.run invocation: normal completion with an
exit code and captured output, subprocess.TimeoutExpired,
FileNotFoundError (carrying its str(e) text), or any other exception
(carrying its str(e) text). -/
inductive ProcResult where
  | completed (returncode : Int) (stdout stderr : String)
  | timedOut
  | fileNotFound (msg : String)
  | exn (msg : String)
deriving DecidableEq, Repr

/-- Outcome of one httpx GET: a response with a status code, an
httpx.RequestError, an httpx.TimeoutException, or any other exception. -/
inductive HttpOutcome where
  | response (status : Nat)
  | requestError
  | timedOut
  | exn (msg : String)
deriving DecidableEq, Repr

/-! Health monitor, from cli/services/health.py. -/

namespace HealthMonitor

/-- The external world one HealthMonitor.check call can observe: the
outcome of the custom status command (if one were run), whether each
spelling of the docker-compose descriptor exists in the service
directory, the outcome of the docker compose ps query, and the outcome
of the HTTP health probe. -/
structure CheckEnv where
  statusCmdResult : ProcResult
  ymlExists : Bool
  yamlExists : Bool
  dockerPs : ProcResult
  http : HttpOutcome
deriving DecidableEq, Repr

/-- HealthMonitor._check_custom_status (health.py lines 147-183): run
the lifecycle.status command; exit code 0 is RUNNING, nonzero is
STOPPED, and every exceptional outcome (TimeoutExpired or any other
exception) is caught and mapped to ERROR.  Never raises. -/
def check_custom_status (cfg : ServiceConfig) (env : CheckEnv) : ServiceStatus :=
  if ¬ optTruthy cfg.lifecycle.status then ServiceStatus.error
  else
    match env.statusCmdResult with
    | ProcResult.completed rc _ _ =>
        if rc = 0 then ServiceStatus.running else ServiceStatus.stopped
    | ProcResult.timedOut => ServiceStatus.error
    | ProcResult.fileNotFound _ => ServiceStatus.error
    | ProcResult.exn _ => ServiceStatus.error

/-- HealthMonitor._check_docker_status (health.py lines 79-124): if
neither docker-compose.yml nor docker-compose.yaml exists the service
is NOT_INSTALLED; otherwise run docker compose ps: nonzero exit is
ERROR, empty stripped stdout is STOPPED, otherwise RUNNING; a
TimeoutExpired or FileNotFoundError is caught and mapped to ERROR,
while any other exception propagates (only those two are caught). -/
def check_docker_status (env : CheckEnv) : Except String ServiceStatus :=
  if ¬ (env.ymlExists || env.yamlExists) then Except.ok ServiceStatus.not_installed
  else
    match env.dockerPs with
    | ProcResult.completed rc out _ =>
        if rc ≠ 0 then Except.ok ServiceStatus.error
        else if pyStrip out = "" then Except.ok ServiceStatus.stopped
        else Except.ok ServiceStatus.running
    | ProcResult.timedOut => Except.ok ServiceStatus.error
    | ProcResult.fileNotFound _ => Except.ok ServiceStatus.error
    | ProcResult.exn m => Except.error m

/-- HealthMonitor._check_health_endpoint (health.py lines 126-145): a
port without a truthy health endpoint counts as healthy; otherwise the
probe is healthy iff the response status is 2xx, an httpx.RequestError
or httpx.TimeoutException yields false, and any other exception
propagates. -/
def check_health_endpoint (env : CheckEnv) (p : PortConfig) : Except String Bool :=
  if ¬ optTruthy p.health_endpoint then Except.ok true
  else
    match env.http with
    | HttpOutcome.response status => Except.ok (200 ≤ status && status < 300)
    | HttpOutcome.requestError => Except.ok false
    | HttpOutcome.timedOut => Except.ok false
    | HttpOutcome.exn m => Except.error m

/-- HealthMonitor.check (health.py lines 23-54): with a truthy
lifecycle.status command, delegate to the custom status check;
otherwise consult the docker status, returning NOT_INSTALLED and
STOPPED directly, and for every other docker status fall through to
the health-endpoint probe (RUNNING/UNHEALTHY) or plain RUNNING. -/
def check (env : CheckEnv) (cfg : ServiceConfig) : Except String ServiceStatus :=
  if optTruthy cfg.lifecycle.status then Except.ok (check_custom_status cfg env)
  else
    match check_docker_status env with
    | Except.error m => Except.error m
    | Except.ok containerStatus =>
        if containerStatus = ServiceStatus.not_installed then
          Except.ok ServiceStatus.not_installed
        else if containerStatus = ServiceStatus.stopped then
          Except.ok ServiceStatus.stopped
        else
          match cfg.primary_port with
          | some p =>
              if optTruthy p.health_endpoint then
                match check_health_endpoint env p with
                | Except.error m => Except.error m
                | Except.ok healthOk =>
                    if healthOk then Except.ok ServiceStatus.running
                    else Except.ok ServiceStatus.unhealthy
              else Except.ok ServiceStatus.running
          | none => Except.ok ServiceStatus.running

/-- The per-entry result recorded by check_all (health.py lines 71-75):
a check that faulted with any exception becomes ERROR, otherwise the
returned status is kept. -/
def entry_status (env : CheckEnv) (cfg : ServiceConfig) : ServiceStatus :=
  match check env cfg with
  | Except.ok s => s
  | Except.error _ => ServiceStatus.error

/-- HealthMonitor.check_all (health.py lines 56-77): one independent
check per config (each with its own environment), exceptions isolated
per entry, results collected into a dict keyed by dir_name. -/
def check_all (envOf : ServiceConfig → CheckEnv) (configs : List ServiceConfig) :
    List (String × ServiceStatus) :=
  configs.foldl (fun d cfg => aupsert cfg.dir_name (entry_status (envOf cfg) cfg) d) []

end HealthMonitor

/-! Lifecycle controller, from cli/services/lifecycle.py. -/

namespace ServiceLifecycle

/-- The subprocess outcomes one lifecycle call can observe: the outcome
of whatever command start would run, of whatever command stop would
run, and of whatever command a restart override would run. -/
structure LifeEnv where
  startResult : ProcResult
  stopResult : ProcResult
  restartResult : ProcResult
deriving DecidableEq, Repr

/-- ServiceLifecycle._run_shell_command (lifecycle.py lines 167-198):
exit code 0 yields (true, stdout or "Success"); nonzero yields (false,
stderr or stdout or "Unknown error"); TimeoutExpired yields (false,
"Command timed out"); any other exception e (FileNotFoundError
included, caught by the generic handler) yields (false, str(e)).
Never raises. -/
def run_shell_command (o : ProcResult) : Bool × String :=
  match o with
  | ProcResult.completed rc out err =>
      if rc = 0 then (true, if out = "" then "Success" else out)
      else (false, if err ≠ "" then err else if out ≠ "" then out else "Unknown error")
  | ProcResult.timedOut => (false, "Command timed out")
  | ProcResult.fileNotFound m => (false, m)
  | ProcResult.exn m => (false, m)

/-- ServiceLifecycle._run_compose_command (lifecycle.py lines 200-232):
as run_shell_command, except a FileNotFoundError (docker binary
missing) yields (false, "Docker not found").  Never raises. -/
def run_compose_command (o : ProcResult) : Bool × String :=
  match o with
  | ProcResult.completed rc out err =>
      if rc = 0 then (true, if out = "" then "Success" else out)
      else (false, if err ≠ "" then err else if out ≠ "" then out else "Unknown error")
  | ProcResult.timedOut => (false, "Command timed out")
  | ProcResult.fileNotFound _ => (false, "Docker not found")
  | ProcResult.exn m => (false, m)

/-- ServiceLifecycle.start (lifecycle.py lines 24-36): run the
lifecycle.start override as a shell command, else docker compose up -d. -/
def start (env : LifeEnv) (cfg : ServiceConfig) : Bool × String :=
  match cfg.lifecycle.start with
  | some _ => run_shell_command env.startResult
  | none => run_compose_command env.startResult

/-- ServiceLifecycle.stop (lifecycle.py lines 38-50): run the
lifecycle.stop override as a shell command, else docker compose down. -/
def stop (env : LifeEnv) (cfg : ServiceConfig) : Bool × String :=
  match cfg.lifecycle.stop with
  | some _ => run_shell_command env.stopResult
  | none => run_compose_command env.stopResult

/-- ServiceLifecycle.restart (lifecycle.py lines 52-73): run the
lifecycle.restart override when present; otherwise stop then start,
short-circuiting on a stop failure. -/
def restart (env : LifeEnv) (cfg : ServiceConfig) : Bool × String :=
  match cfg.lifecycle.restart with
  | some _ => run_shell_command env.restartResult
  | none =>
      let stopRes := stop env cfg
      if ¬ stopRes.1 then (false, "Failed to stop: " ++ stopRes.2)
      else
        let startRes := start env cfg
        if ¬ startRes.1 then (false, "Failed to start: " ++ startRes.2)
        else (true, "Restarted successfully")

/-- The external world one install call can observe: whether update.sh
exists in the service directory, whether the spawned process exposed a
stdout pipe, the raw decoded lines streamed from it, and its exit code. -/
structure InstallEnv where
  updateShExists : Bool
  stdoutCaptured : Bool
  outputLines : List String
  returncode : Int
deriving DecidableEq, Repr

/-- The final sentinel line emitted by install for exit code rc
(lifecycle.py lines 115-118). -/
def install_sentinel (rc : Int) : String :=
  if rc = 0 then "✅ Install completed successfully"
  else "❌ Install failed with code " ++ toString rc

/-- ServiceLifecycle.install (lifecycle.py lines 75-118): with a
lifecycle.install override, spawn it as a shell; otherwise require
update.sh in the service directory, reporting a single error line when
it is absent; then stream the rstripped output lines of the process
and end with the sentinel line for its exit code. -/
def install (env : InstallEnv) (cfg : ServiceConfig) : List String :=
  match cfg.lifecycle.install with
  | some _ =>
      if ¬ env.stdoutCaptured then ["Error: Could not capture output"]
      else env.outputLines.map pyRstrip ++ [install_sentinel env.returncode]
  | none =>
      if ¬ env.updateShExists then
        ["Error: " ++ (cfg.path.child "update.sh").render ++
          " not found and no lifecycle.install command"]
      else if ¬ env.stdoutCaptured then ["Error: Could not capture output"]
      else env.outputLines.map pyRstrip ++ [install_sentinel env.returncode]

end ServiceLifecycle

/-! Registry, from cli/services/registry.py. -/

namespace ServiceRegistry

/-- A parsed YAML mapping for the vendor key; absent subkeys model
KeyError sites in _load_config. -/
structure VendorYaml where
  url : Option String := none
  ref : Option String := none
deriving DecidableEq, Repr

/-- A parsed YAML mapping for one ports entry. -/
structure PortYaml where
  name : Option String := none
  port : Option Int := none
  health_endpoint : Option String := none
deriving DecidableEq, Repr

/-- A parsed YAML mapping for one env_vars entry. -/
structure EnvVarYaml where
  name : Option String := none
  required : Option Bool := none
  secret : Option Bool := none
  default : Option String := none
  description : Option String := none
deriving DecidableEq, Repr

/-- A parsed YAML mapping for the dependencies key. -/
structure DepsYaml where
  system : Option (List String) := none
  services : Option (List String) := none
deriving DecidableEq, Repr

/-- A parsed YAML mapping for the lifecycle key. -/
structure LifecycleYaml where
  start : Option String := none
  stop : Option String := none
  restart : Option String := none
  install : Option String := none
  logs : Option String := none
  status : Option String := none
deriving DecidableEq, Repr

/-- The top-level YAML mapping yaml.safe_load produces from a
service.yaml document; a field is none when its key is absent. -/
structure YamlData where
  name : Option String := none
  description : Option String := none
  category : Option String := none
  vendor : Option VendorYaml := none
  ports : Option (List PortYaml) := none
  env_vars : Option (List EnvVarYaml) := none
  dependencies : Option DepsYaml := none
  notes : Option (List (String × String)) := none
  lifecycle : Option LifecycleYaml := none
deriving DecidableEq, Repr

/-- Python mapping[key]: the value when present, otherwise a KeyError. -/
def atKey {α : Type} (o : Option α) (k : String) : Except String α :=
  match o with
  | some a => Except.ok a
  | none => Except.error ("KeyError: " ++ k)

/-- ServiceRegistry._load_config (registry.py lines 85-156): build a
ServiceConfig from the parsed YAML mapping, in the source's evaluation
order (vendor, ports, env_vars, dependencies, lifecycle, then the
ServiceConfig arguments name and description); a missing required key
raises a KeyError, which this embedding returns as Except.error. -/
def load_config (data : YamlData) (service_path : FsPath) : Except String ServiceConfig := do
  let vendor ← match data.vendor with
    | none => pure (Option.none (α := VendorConfig))
    | some v => do
        let url ← atKey v.url "url"
        let ref ← atKey v.ref "ref"
        pure (some { url := url, ref := ref })
  let ports ← (data.ports.getD []).mapM (fun p => do
    let pname ← atKey p.name "name"
    let pport ← atKey p.port "port"
    pure { name := pname, port := pport, health_endpoint := p.health_endpoint : PortConfig })
  let envVars ← (data.env_vars.getD []).mapM (fun e => do
    let ename ← atKey e.name "name"
    pure { name := ename, required := e.required.getD false, secret := e.secret.getD false,
           default := e.default, description := e.description : EnvVarConfig })
  let deps := data.dependencies.getD {}
  let lifecycleData := data.lifecycle.getD {}
  let lifecycle : LifecycleCommands :=
    { start := lifecycleData.start, stop := lifecycleData.stop,
      restart := lifecycleData.restart, install := lifecycleData.install,
      logs := lifecycleData.logs, status := lifecycleData.status }
  let cname ← atKey data.name "name"
  let cdescription ← atKey data.description "description"
  pure
    { name := cname, description := cdescription,
      category := data.category.getD "optional", path := service_path,
      vendor := vendor, ports := ports, env_vars := envVars,
      system_dependencies := deps.system.getD [],
      service_dependencies := deps.services.getD [],
      notes := data.notes.getD [], lifecycle := lifecycle }

instance {ε α : Type} [DecidableEq ε] [DecidableEq α] : DecidableEq (Except ε α) := fun x y =>
  match x, y with
  | Except.ok a, Except.ok b =>
      if h : a = b then isTrue (by rw [h])
      else isFalse (by intro he; cases he; exact h rfl)
  | Except.ok _, Except.error _ => isFalse (by intro h; cases h)
  | Except.error _, Except.ok _ => isFalse (by intro h; cases h)
  | Except.error a, Except.error b =>
      if h : a = b then isTrue (by rw [h])
      else isFalse (by intro he; cases he; exact h rfl)

/-- One directory entry of the services root: its name, whether it is a
directory, and its service.yaml content (none when no service.yaml file
exists; an Except.error models a yaml.safe_load failure or an unusable
document). -/
structure DirEntry where
  name : String
  isDir : Bool
  yaml : Option (Except String YamlData)
deriving DecidableEq, Repr

/-- The services root directory: whether it exists, its path, and its
entries. -/
structure Fs where
  rootExists : Bool
  root : FsPath
  entries : List DirEntry
deriving DecidableEq, Repr

/-- The registry cache, the id-to-config dict self._cache. -/
def Cache : Type := List (String × ServiceConfig)

/-- sorted(self.services_dir.iterdir()): the entries in lexicographic
order of name (all paths share the root prefix). -/
def sortEntries (l : List DirEntry) : List DirEntry :=
  l.insertionSort (fun a b => pyStrLe a.name b.name = true)

/-- Parsing the descriptor of one directory entry end to end: open and
safe_load service.yaml, then _load_config.  none when the entry is not
a subdirectory holding a descriptor; Except.error when loading raised. -/
def entryLoad (root : FsPath) (e : DirEntry) : Option (Except String ServiceConfig) :=
  if ¬ e.isDir then none
  else
    match e.yaml with
    | none => none
    | some yr => some (yr.bind (fun d => load_config d (root.child e.name)))

/-- The loop body sequence of discover (registry.py lines 44-58),
threading the accumulated result list and the cache. -/
def discoverGo (root : FsPath) :
    List DirEntry → List ServiceConfig → Cache → List ServiceConfig × Cache
  | [], acc, cache => (acc, cache)
  | e :: rest, acc, cache =>
      match entryLoad root e with
      | none => discoverGo root rest acc cache
      | some (Except.error _) => discoverGo root rest acc cache
      | some (Except.ok cfg) =>
          discoverGo root rest (acc ++ [cfg]) (aupsert cfg.dir_name cfg cache)

/-- ServiceRegistry.discover (registry.py lines 33-60): an absent root
yields no services; otherwise scan the sorted entries, skipping
non-directories, directories without service.yaml, and entries whose
load raised (printing a warning), and cache each success under its
dir_name.  Returns the discovered list and the cache after the call. -/
def discover (fs : Fs) (cache : Cache) : List ServiceConfig × Cache :=
  if ¬ fs.rootExists then ([], cache)
  else discoverGo fs.root (sortEntries fs.entries) [] cache

/-- Whether <root>/<name>/service.yaml exists, and when it does, the
outcome of safe_loading it (registry.py lines 75-78). -/
def configFileAt (fs : Fs) (name : String) : Option (Except String YamlData) :=
  if ¬ fs.rootExists then none
  else
    match fs.entries.find? (fun e => e.name = name) with
    | none => none
    | some e => if e.isDir then e.yaml else none

/-- ServiceRegistry.get (registry.py lines 62-83): a cached id is
returned as is; otherwise, when <root>/<name>/service.yaml exists it is
loaded (a load failure propagates as Except.error, leaving the cache
unchanged) and cached; when it does not exist the result is none.
Returns the call outcome and the cache after the call. -/
def get (fs : Fs) (cache : Cache) (name : String) :
    Except String (Option ServiceConfig) × Cache :=
  match alookup name cache with
  | some cfg => (Except.ok (some cfg), cache)
  | none =>
      match configFileAt fs name with
      | none => (Except.ok none, cache)
      | some yr =>
          match yr.bind (fun d => load_config d (fs.root.child name)) with
          | Except.ok cfg => (Except.ok (some cfg), aupsert name cfg cache)
          | Except.error m => (Except.error m, cache)

end ServiceRegistry

/-! Env-file reader and writer, from cli/screens/config_editor.py. -/

namespace ConfigEditor

/-- The single-quote character. -/
def squoteChar : Char := Char.ofNat 39

/-- The double-quote character. -/
def dquoteChar : Char := Char.ofNat 34

/-- Whether save_env_file wraps a value in double quotes: it contains a
space, an equals sign or a double quote (config_editor.py line 41). -/
def needsQuote (v : String) : Bool :=
  v.data.contains ' ' || v.data.contains '=' || v.data.contains dquoteChar

/-- The value text save_env_file writes after the equals sign. -/
def encodeValue (v : String) : String :=
  if needsQuote v then String.mk (dquoteChar :: v.data ++ [dquoteChar]) else v

/-- sorted(env_vars.items()): the pairs in key order.  A Python dict
has pairwise-distinct keys, so the tuple comparison never reaches the
values and sorting by key is exact. -/
def sortPairs (l : List (String × String)) : List (String × String) :=
  l.insertionSort (fun a b => pyStrLe a.1 b.1 = true)

/-- Python str.join with a newline separator. -/
def joinNl : List String → String
  | [] => ""
  | l :: ls =>
      match ls with
      | [] => l
      | _ :: _ => l ++ "\n" ++ joinNl ls

/-- save_env_file (config_editor.py lines 36-44): one key=value line
per pair in sorted key order, values quoted when needed, joined with
newlines plus a trailing newline; the returned string is the content
written to the file. -/
def save_env_file (env_vars : List (String × String)) : String :=
  joinNl ((sortPairs env_vars).map (fun kv => kv.1 ++ "=" ++ encodeValue kv.2)) ++ "\n"

/-- Python text-mode line splitting with universal newlines: a line
ends at a linefeed, a carriage return + linefeed, or a lone carriage
return.  File iteration yields the lines with their terminators and no
final empty line; since load_env_file immediately strips each line and
skips empty ones, yielding terminator-free lines plus a possible final
empty line is observationally identical. -/
def splitLinesChars : List Char → List Char → List (List Char)
  | [], acc => [acc.reverse]
  | '\n' :: rest, acc => acc.reverse :: splitLinesChars rest []
  | '\r' :: '\n' :: rest, acc => acc.reverse :: splitLinesChars rest []
  | '\r' :: rest, acc => acc.reverse :: splitLinesChars rest []
  | c :: rest, acc => splitLinesChars rest (c :: acc)

/-- Whether a value both starts and ends with a double quote or both
starts and ends with a single quote (config_editor.py lines 28-30);
true for a one-character quote string, as in Python. -/
def hasQuotePair (l : List Char) : Bool :=
  match l.head?, l.getLast? with
  | some a, some b => (a = dquoteChar && b = dquoteChar) || (a = squoteChar && b = squoteChar)
  | _, _ => false

/-- value[1:-1] applied when a quote pair is present. -/
def stripQuotePair (l : List Char) : List Char :=
  if hasQuotePair l then (l.drop 1).dropLast else l

/-- The body of the load_env_file loop for one raw line
(config_editor.py lines 20-32): strip it, skip blanks and comments,
and on a line containing an equals sign, split at the first one, strip
the key and the value, remove a surrounding quote pair from the value,
and assign into the dict. -/
def processLine (env : List (String × String)) (rawLine : List Char) :
    List (String × String) :=
  let line := stripChars rawLine
  if line = [] then env
  else if line.head? = some '#' then env
  else if line.contains '=' then
    let key := line.takeWhile (fun c => c ≠ '=')
    let rawValue := (line.dropWhile (fun c => c ≠ '=')).drop 1
    let value := stripQuotePair (stripChars rawValue)
    aupsert (String.mk (stripChars key)) (String.mk value) env
  else env

/-- load_env_file (config_editor.py lines 14-33) on the content of an
existing file: fold the per-line assignment over the lines. -/
def load_env_file (content : String) : List (String × String) :=
  (splitLinesChars content.data []).foldl processLine []

/-- Safety conditions on a key under which the env-file round trip can
preserve it: nonempty, equal to its own strip, free of the separator
and of line breaks, and not starting the line as a comment. -/
def SafeKey (k : String) : Prop :=
  k ≠ "" ∧ pyStrip k = k ∧ '=' ∉ k.data ∧ '\n' ∉ k.data ∧ '\r' ∉ k.data ∧
    k.data.head? ≠ some '#'

/-- Safety conditions on a value under which the env-file round trip
can preserve it: free of line breaks, and when the writer leaves it
unquoted (no space, separator or double quote in it), it must equal
its own strip and not read back as a quote-wrapped string. -/
def SafeVal (v : String) : Prop :=
  '\n' ∉ v.data ∧ '\r' ∉ v.data ∧
    (needsQuote v = false → pyStrip v = v ∧ hasQuotePair v.data = false)

instance (k : String) : Decidable (SafeKey k) := by
  unfold SafeKey
  infer_instance

instance (v : String) : Decidable (SafeVal v) := by
  unfold SafeVal
  infer_instance

end ConfigEditor

/-! Shared sample values for witnesses and counterexamples. -/

def samplePath : FsPath := ⟨["services", "svc"]⟩

def baseConfig : ServiceConfig :=
  { name := "svc", description := "a service", category := "optional", path := samplePath }

def statusConfig : ServiceConfig :=
  { baseConfig with lifecycle := { status := some "docker info" } }

def quietEnv : HealthMonitor.CheckEnv :=
  { statusCmdResult := ProcResult.completed 0 "" "",
    ymlExists := false, yamlExists := false,
    dockerPs := ProcResult.completed 0 "" "",
    http := HttpOutcome.requestError }

/-- Transcription of the message discipline the spec claims for
lifecycle results, to be compared with the embedded code: success
carries the captured stdout (or the default success message when
stdout is empty); failure carries stderr, or stdout if stderr is
empty, or a fault description (timeout, tool-not-found, or the
exception text). -/
def SpecMessageDiscipline (o : ProcResult) (r : Bool × String) : Prop :=
  (r.1 = true → ∃ rc out err, o = ProcResult.completed rc out err ∧ rc = 0 ∧
      r.2 = (if out = "" then "Success" else out))
  ∧ (r.1 = false →
      (∃ rc out err, o = ProcResult.completed rc out err ∧ rc ≠ 0 ∧
        r.2 = (if err ≠ "" then err else if out ≠ "" then out else "Unknown error"))
      ∨ (o = ProcResult.timedOut ∧ r.2 = "Command timed out")
      ∨ (∃ m, o = ProcResult.fileNotFound m ∧ (r.2 = m ∨ r.2 = "Docker not found"))
      ∨ (∃ m, o = ProcResult.exn m ∧ r.2 = m))

/-- The successfully parsed config of one directory entry, when the
entry is a subdirectory whose descriptor exists and loads. -/
def ServiceRegistry.entryConfig (root : FsPath) (e : ServiceRegistry.DirEntry) :
    Option ServiceConfig :=
  match ServiceRegistry.entryLoad root e with
  | some (Except.ok cfg) => some cfg
  | _ => none

/-! Shared association-list lemmas. -/

theorem alookup_aupsert_self {α : Type} (k : String) (v : α) (d : List (String × α)) :
    alookup k (aupsert k v d) = some v := by
  induction d with
  | nil => simp [alookup, aupsert]
  | cons h t ih =>
      by_cases hk : h.1 = k
      · simp [alookup, aupsert, hk]
      · simp [alookup, aupsert, hk, ih]

theorem alookup_aupsert_ne {α : Type} {k k' : String} (v : α) (d : List (String × α))
    (h : k' ≠ k) : alookup k (aupsert k' v d) = alookup k d := by
  induction d with
  | nil => simp [alookup, aupsert, h]
  | cons hd t ih =>
      by_cases hk : hd.1 = k'
      · simp [alookup, aupsert, hk, h]
      · simp only [aupsert, hk, if_false, alookup]
        by_cases hk2 : hd.1 = k
        · simp [hk2]
        · simp [hk2, ih]

theorem aupsert_of_alookup_none {α : Type} {k : String} (v : α) {d : List (String × α)}
    (h : alookup k d = none) : aupsert k v d = d ++ [(k, v)] := by
  induction d with
  | nil => simp [aupsert]
  | cons hd t ih =>
      by_cases hk : hd.1 = k
      · simp [alookup, hk] at h
      · simp only [alookup, hk, if_false] at h
        simp [aupsert, hk, ih h]

theorem alookup_append {α : Type} (k : String) (d e : List (String × α)) :
    alookup k (d ++ e) =
      match alookup k d with
      | some v => some v
      | none => alookup k e := by
  induction d with
  | nil => simp [alookup]
  | cons hd t ih =>
      by_cases hk : hd.1 = k
      · simp [alookup, hk]
      · simp [alookup, hk, ih]

/-- Folding fresh-key upserts over an initial dict appends the mapped
pairs in order. -/
theorem foldl_aupsert_map {β α : Type} (key : β → String) (val : β → α) :
    ∀ (l : List β) (d : List (String × α)),
      (∀ b ∈ l, alookup (key b) d = none) →
      (l.map key).Nodup →
      l.foldl (fun acc b => aupsert (key b) (val b) acc) d
        = d ++ l.map (fun b => (key b, val b))
  | [], d, _, _ => by simp
  | b :: t, d, hfresh, hnd => by
      have hb : alookup (key b) d = none := hfresh b (by simp)
      have step : aupsert (key b) (val b) d = d ++ [(key b, val b)] :=
        aupsert_of_alookup_none _ hb
      have hmap : key b ∉ t.map key ∧ (t.map key).Nodup := by
        have h2 := hnd
        rw [List.map_cons, List.nodup_cons] at h2
        exact h2
      have hfresh' : ∀ c ∈ t, alookup (key c) (d ++ [(key b, val b)]) = none := by
        intro c hc
        have hne : key b ≠ key c := by
          intro he
          exact hmap.1 (by rw [he]; exact List.mem_map_of_mem key hc)
        rw [alookup_append, hfresh c (List.mem_cons_of_mem _ hc)]
        simp [alookup, hne]
      calc (b :: t).foldl (fun acc c => aupsert (key c) (val c) acc) d
          = t.foldl (fun acc c => aupsert (key c) (val c) acc) (d ++ [(key b, val b)]) := by
            simp [step]
        _ = (d ++ [(key b, val b)]) ++ t.map (fun c => (key c, val c)) :=
            foldl_aupsert_map key val t _ hfresh' hmap.2
        _ = d ++ (b :: t).map (fun c => (key c, val c)) := by simp

/-- Looking a key up in the image of a key-distinct list finds the
value of the unique member carrying that key. -/
theorem alookup_map_of_mem {β α : Type} (key : β → String) (val : β → α) :
    ∀ (l : List β) (b : β), b ∈ l → (l.map key).Nodup →
      alookup (key b) (l.map fun c => (key c, val c)) = some (val b)
  | [], b, hb, _ => by cases hb
  | c :: t, b, hb, hnd => by
      have hmap : key c ∉ t.map key ∧ (t.map key).Nodup := by
        have h2 := hnd
        rw [List.map_cons, List.nodup_cons] at h2
        exact h2
      rcases List.mem_cons.mp hb with hb | hb
      · subst hb
        simp [alookup]
      · have hne : key c ≠ key b := by
          intro he
          exact hmap.1 (by rw [he]; exact List.mem_map_of_mem key hb)
        simp only [List.map_cons, alookup, hne, if_false]
        exact alookup_map_of_mem key val t b hb hmap.2

/-! Claim theorems. -/

/-- Claim C1: for every ServiceConfig whose lifecycle.status command is
set (a nonempty command string, per the truthiness test the code
performs), check executes that command alone and its exit code alone
determines the result: exit code 0 yields Running, nonzero yields
Stopped, and a timeout or execution failure yields Error; the result
never depends on the container query or the HTTP probe (any two
environments agreeing on the status-command outcome give the same
result). -/
theorem check_custom_status_precedence
    (env : HealthMonitor.CheckEnv) (cfg : ServiceConfig) (cmd : String)
    (hset : cfg.lifecycle.status = some cmd) (hne : cmd ≠ "") :
    (∀ rc out err, env.statusCmdResult = ProcResult.completed rc out err →
        HealthMonitor.check env cfg =
          Except.ok (if rc = 0 then ServiceStatus.running else ServiceStatus.stopped))
    ∧ (env.statusCmdResult = ProcResult.timedOut →
        HealthMonitor.check env cfg = Except.ok ServiceStatus.error)
    ∧ (∀ m, env.statusCmdResult = ProcResult.fileNotFound m →
        HealthMonitor.check env cfg = Except.ok ServiceStatus.error)
    ∧ (∀ m, env.statusCmdResult = ProcResult.exn m →
        HealthMonitor.check env cfg = Except.ok ServiceStatus.error)
    ∧ (∀ env2 : HealthMonitor.CheckEnv, env2.statusCmdResult = env.statusCmdResult →
        HealthMonitor.check env2 cfg = HealthMonitor.check env cfg) := by
  have htr : optTruthy cfg.lifecycle.status = true := by
    simp [optTruthy, hset, hne]
  refine ⟨?_, ?_, ?_, ?_, ?_⟩
  · intro rc out err h
    simp [HealthMonitor.check, htr, HealthMonitor.check_custom_status, h]
  · intro h
    simp [HealthMonitor.check, htr, HealthMonitor.check_custom_status, h]
  · intro m h
    simp [HealthMonitor.check, htr, HealthMonitor.check_custom_status, h]
  · intro m h
    simp [HealthMonitor.check, htr, HealthMonitor.check_custom_status, h]
  · intro env2 h2
    simp [HealthMonitor.check, htr, HealthMonitor.check_custom_status, h2]

/-- Witness for C1 at a concrete service and environment. -/
theorem check_custom_status_precedence_w :
    HealthMonitor.check quietEnv statusConfig = Except.ok ServiceStatus.running := by
  have h := check_custom_status_precedence quietEnv statusConfig "docker info" rfl
    (by decide)
  have h0 := h.1 0 "" "" rfl
  simpa using h0

/-- Claim C4: for every ServiceConfig with no lifecycle.restart
override, restart performs stop and then start sequentially: if stop
fails, the result is (false, message) with the stop failure message,
and start is never consulted (any environment agreeing on the stop
outcome gives the same result); if stop succeeds, the result is
determined by the outcome of start. -/
theorem restart_is_stop_then_start
    (env : ServiceLifecycle.LifeEnv) (cfg : ServiceConfig)
    (hov : cfg.lifecycle.restart = none) :
    ((ServiceLifecycle.stop env cfg).1 = false →
        ServiceLifecycle.restart env cfg =
          (false, "Failed to stop: " ++ (ServiceLifecycle.stop env cfg).2)
        ∧ ∀ env2 : ServiceLifecycle.LifeEnv, env2.stopResult = env.stopResult →
            ServiceLifecycle.restart env2 cfg = ServiceLifecycle.restart env cfg)
    ∧ ((ServiceLifecycle.stop env cfg).1 = true →
        ServiceLifecycle.restart env cfg =
          (if (ServiceLifecycle.start env cfg).1 then (true, "Restarted successfully")
           else (false, "Failed to start: " ++ (ServiceLifecycle.start env cfg).2))) := by
  constructor
  · intro hfail
    constructor
    · simp [ServiceLifecycle.restart, hov, hfail]
    · intro env2 h2
      have hs : ServiceLifecycle.stop env2 cfg = ServiceLifecycle.stop env cfg := by
        cases hcmd : cfg.lifecycle.stop <;>
          simp [ServiceLifecycle.stop, hcmd, h2]
      simp [ServiceLifecycle.restart, hov, hs, hfail]
  · intro hok
    by_cases hst : (ServiceLifecycle.start env cfg).1 <;>
      simp [ServiceLifecycle.restart, hov, hok, hst]

/-- Witness for C4 at a concrete service and environment: the stop
command times out, so restart reports the stop failure, and an
environment in which the start command would have succeeded gives the
same result. -/
theorem restart_is_stop_then_start_w :
    ServiceLifecycle.restart
        { startResult := ProcResult.completed 0 "started" "",
          stopResult := ProcResult.timedOut,
          restartResult := ProcResult.completed 0 "" "" } baseConfig
      = (false, "Failed to stop: Command timed out") := by
  have h := (restart_is_stop_then_start
    { startResult := ProcResult.completed 0 "started" "",
      stopResult := ProcResult.timedOut,
      restartResult := ProcResult.completed 0 "" "" } baseConfig rfl).1 (by decide)
  rw [h.1]
  rfl

/-- Claim C3 (code bug): the spec says a failed container query
(nonzero exit, timeout, or tool not found) makes check return Error,
and _check_docker_status indeed computes ServiceStatus.error for those
outcomes, but check only tests its result against NOT_INSTALLED and
STOPPED and then falls through to the comment saying containers are
running: at a concrete service with a compose descriptor, no ports and
a docker query exiting nonzero, the docker probe yields Error yet
check returns Running. -/
theorem check_drops_docker_error :
    HealthMonitor.check_docker_status
        { statusCmdResult := ProcResult.completed 0 "" "",
          ymlExists := true, yamlExists := false,
          dockerPs := ProcResult.completed 1 "" "error during connect",
          http := HttpOutcome.requestError }
      = Except.ok ServiceStatus.error
    ∧ HealthMonitor.check
        { statusCmdResult := ProcResult.completed 0 "" "",
          ymlExists := true, yamlExists := false,
          dockerPs := ProcResult.completed 1 "" "error during connect",
          http := HttpOutcome.requestError } baseConfig
      = Except.ok ServiceStatus.running := by
  exact ⟨rfl, rfl⟩

/-- Claim C2 counterexample: check_all keys its result map by the
config id (dir_name), so a list of two configs sharing an id produces
a single entry, not len(configs) entries. -/
theorem check_all_duplicate_id_cex :
    ([baseConfig, baseConfig] : List ServiceConfig).length = 2
    ∧ (HealthMonitor.check_all (fun _ => quietEnv) [baseConfig, baseConfig]).length ≠ 2 := by
  constructor
  · rfl
  · intro h
    simp [HealthMonitor.check_all, aupsert,
      ServiceConfig.dir_name, FsPath.name] at h

/-- Claim C2 as amended: for every list of ServiceConfigs with pairwise
distinct ids, check_all returns a map with exactly one entry per input
config, keyed by its id; each entry value is computed from that config
and its own probe environment alone (a faulting check yields Error for
that entry), so one probe fault can neither change another entry nor
prevent the map from being returned. -/
theorem check_all_isolated_entries
    (envOf : ServiceConfig → HealthMonitor.CheckEnv) (configs : List ServiceConfig)
    (hnd : (configs.map ServiceConfig.dir_name).Nodup) :
    (HealthMonitor.check_all envOf configs).length = configs.length
    ∧ ∀ cfg ∈ configs,
        alookup cfg.dir_name (HealthMonitor.check_all envOf configs)
          = some (HealthMonitor.entry_status (envOf cfg) cfg) := by
  have hfold : HealthMonitor.check_all envOf configs
      = configs.map (fun c => (c.dir_name, HealthMonitor.entry_status (envOf c) c)) := by
    have h := foldl_aupsert_map ServiceConfig.dir_name
      (fun c => HealthMonitor.entry_status (envOf c) c) configs []
      (fun _ _ => rfl) hnd
    simpa [HealthMonitor.check_all] using h
  constructor
  · rw [hfold, List.length_map]
  · intro cfg hc
    rw [hfold]
    exact alookup_map_of_mem _ _ configs cfg hc hnd

/-- Witness for C2 at two concrete services with distinct ids, one of
whose docker probes raises an exception that check does not catch: the
faulting entry is Error, the other entry is unaffected. -/
theorem check_all_isolated_entries_w :
    (HealthMonitor.check_all
        (fun c => if c.dir_name = "bad" then
            { quietEnv with dockerPs := ProcResult.exn "boom",
                            ymlExists := true }
          else quietEnv)
        [baseConfig, { baseConfig with path := ⟨["services", "bad"]⟩ }]).length = 2
    ∧ alookup "bad"
        (HealthMonitor.check_all
          (fun c => if c.dir_name = "bad" then
              { quietEnv with dockerPs := ProcResult.exn "boom",
                              ymlExists := true }
            else quietEnv)
          [baseConfig, { baseConfig with path := ⟨["services", "bad"]⟩ }])
        = some ServiceStatus.error
    ∧ alookup "svc"
        (HealthMonitor.check_all
          (fun c => if c.dir_name = "bad" then
              { quietEnv with dockerPs := ProcResult.exn "boom",
                              ymlExists := true }
            else quietEnv)
          [baseConfig, { baseConfig with path := ⟨["services", "bad"]⟩ }])
        = some ServiceStatus.not_installed := by
  have h := check_all_isolated_entries
    (fun c => if c.dir_name = "bad" then
        { quietEnv with dockerPs := ProcResult.exn "boom", ymlExists := true }
      else quietEnv)
    [baseConfig, { baseConfig with path := ⟨["services", "bad"]⟩ }]
    (by decide)
  refine ⟨h.1, ?_, ?_⟩
  · have hb := h.2 { baseConfig with path := ⟨["services", "bad"]⟩ } (by simp)
    simpa using hb
  · have hs := h.2 baseConfig (by simp)
    simpa using hs

/-- Claim C8: for every ServiceConfig, the line sequence produced by
install is a finite list (it terminates once the child output, itself
finite, ends); when a process is run and its stdout captured, the
sequence is the rstripped output lines followed by a final sentinel
line reporting success or failure with the exit code; with no install
override and no update script, the sequence is exactly one line
reporting the missing script. -/
theorem install_sentinel_shape
    (env : ServiceLifecycle.InstallEnv) (cfg : ServiceConfig) :
    (cfg.lifecycle.install = none → env.updateShExists = false →
        ServiceLifecycle.install env cfg =
          ["Error: " ++ (cfg.path.child "update.sh").render ++
            " not found and no lifecycle.install command"])
    ∧ ((cfg.lifecycle.install ≠ none ∨ env.updateShExists = true) →
        env.stdoutCaptured = true →
        ServiceLifecycle.install env cfg =
          env.outputLines.map pyRstrip ++
            [ServiceLifecycle.install_sentinel env.returncode]
        ∧ (ServiceLifecycle.install env cfg).getLast? =
            some (ServiceLifecycle.install_sentinel env.returncode)) := by
  constructor
  · intro hnone hupd
    simp [ServiceLifecycle.install, hnone, hupd]
  · intro hproc hcap
    have heq : ServiceLifecycle.install env cfg =
        env.outputLines.map pyRstrip ++
          [ServiceLifecycle.install_sentinel env.returncode] := by
      rcases hproc with hproc | hproc
      · rcases hcmd : cfg.lifecycle.install with _ | c
        · exact absurd hcmd hproc
        · simp [ServiceLifecycle.install, hcmd, hcap]
      · rcases hcmd : cfg.lifecycle.install with _ | c <;>
          simp [ServiceLifecycle.install, hcmd, hcap, hproc]
    refine ⟨heq, ?_⟩
    rw [heq]
    exact List.getLast?_concat _

/-- Witness for C8 at a concrete service: scenario D (no override, no
update.sh) yields exactly the missing-script line, and a run streaming
two lines ends with the failure sentinel for exit code 2. -/
theorem install_sentinel_shape_w :
    ServiceLifecycle.install
        { updateShExists := false, stdoutCaptured := true,
          outputLines := [], returncode := 0 } baseConfig
      = ["Error: services/svc/update.sh not found and no lifecycle.install command"]
    ∧ ServiceLifecycle.install
        { updateShExists := true, stdoutCaptured := true,
          outputLines := ["cloning ", "done"], returncode := 2 } baseConfig
      = ["cloning", "done", "❌ Install failed with code 2"] := by
  constructor
  · have h := (install_sentinel_shape
      { updateShExists := false, stdoutCaptured := true,
        outputLines := [], returncode := 0 } baseConfig).1 rfl rfl
    rw [h]
    rfl
  · have h := ((install_sentinel_shape
      { updateShExists := true, stdoutCaptured := true,
        outputLines := ["cloning ", "done"], returncode := 2 } baseConfig).2
      (Or.inr rfl) rfl).1
    rw [h]
    rfl

/-- Either command runner satisfies the spec message discipline for
every subprocess outcome. -/
theorem runners_message_discipline (o : ProcResult) :
    SpecMessageDiscipline o (ServiceLifecycle.run_shell_command o)
    ∧ SpecMessageDiscipline o (ServiceLifecycle.run_compose_command o) := by
  cases o with
  | completed rc out err =>
      by_cases hrc : rc = 0
      · subst hrc
        refine ⟨⟨fun _ => ⟨0, out, err, rfl, rfl, ?_⟩, fun hf => ?_⟩,
                ⟨fun _ => ⟨0, out, err, rfl, rfl, ?_⟩, fun hf => ?_⟩⟩ <;>
          simp [ServiceLifecycle.run_shell_command,
            ServiceLifecycle.run_compose_command] at *
      · constructor
        · constructor
          · intro ht
            simp [ServiceLifecycle.run_shell_command, hrc] at ht
          · intro _
            exact Or.inl ⟨rc, out, err, rfl, hrc, by
              simp [ServiceLifecycle.run_shell_command, hrc]⟩
        · constructor
          · intro ht
            simp [ServiceLifecycle.run_compose_command, hrc] at ht
          · intro _
            exact Or.inl ⟨rc, out, err, rfl, hrc, by
              simp [ServiceLifecycle.run_compose_command, hrc]⟩
  | timedOut =>
      refine ⟨⟨fun ht => ?_, fun _ => Or.inr (Or.inl ⟨rfl, rfl⟩)⟩,
              ⟨fun ht => ?_, fun _ => Or.inr (Or.inl ⟨rfl, rfl⟩)⟩⟩ <;>
        simp [ServiceLifecycle.run_shell_command,
          ServiceLifecycle.run_compose_command] at ht
  | fileNotFound m =>
      refine ⟨⟨fun ht => ?_, fun _ => Or.inr (Or.inr (Or.inl ⟨m, rfl, Or.inl rfl⟩))⟩,
              ⟨fun ht => ?_, fun _ => Or.inr (Or.inr (Or.inl ⟨m, rfl, Or.inr rfl⟩))⟩⟩ <;>
        simp [ServiceLifecycle.run_shell_command,
          ServiceLifecycle.run_compose_command] at ht
  | exn m =>
      refine ⟨⟨fun ht => ?_, fun _ => Or.inr (Or.inr (Or.inr ⟨m, rfl, rfl⟩))⟩,
              ⟨fun ht => ?_, fun _ => Or.inr (Or.inr (Or.inr ⟨m, rfl, rfl⟩))⟩⟩ <;>
        simp [ServiceLifecycle.run_shell_command,
          ServiceLifecycle.run_compose_command] at ht

/-- Claim C5 counterexample: with no overrides and a start command
completing with exit code 0 and nonempty stdout "out", restart
succeeds with the fixed message "Restarted successfully", not the
captured stdout the claim requires success to carry. -/
theorem restart_message_not_stdout_cex :
    ServiceLifecycle.restart
        { startResult := ProcResult.completed 0 "out" "",
          stopResult := ProcResult.completed 0 "" "",
          restartResult := ProcResult.completed 0 "" "" } baseConfig
      = (true, "Restarted successfully")
    ∧ (ServiceLifecycle.restart
        { startResult := ProcResult.completed 0 "out" "",
          stopResult := ProcResult.completed 0 "" "",
          restartResult := ProcResult.completed 0 "" "" } baseConfig).2 ≠ "out" := by
  exact ⟨rfl, by decide⟩

/-- Claim C5 as amended: start, stop and restart never raise across
their boundary — every subprocess outcome, exceptional ones included,
is returned as a (success, message) pair.  start, stop, and restart
with an override follow the claimed message discipline (success
carries stdout or a default; failure carries stderr, or stdout, or a
fault description); restart without an override instead wraps the
stop/start results: a stop failure gives (false, "Failed to stop: " +
message), a start failure gives (false, "Failed to start: " +
message), and success gives the fixed message (true, "Restarted
successfully"). -/
theorem lifecycle_never_raises_message_discipline
    (env : ServiceLifecycle.LifeEnv) (cfg : ServiceConfig) :
    SpecMessageDiscipline env.startResult (ServiceLifecycle.start env cfg)
    ∧ SpecMessageDiscipline env.stopResult (ServiceLifecycle.stop env cfg)
    ∧ (∀ c, cfg.lifecycle.restart = some c →
        SpecMessageDiscipline env.restartResult (ServiceLifecycle.restart env cfg))
    ∧ (cfg.lifecycle.restart = none →
        ServiceLifecycle.restart env cfg =
          (if (ServiceLifecycle.stop env cfg).1 = false then
             (false, "Failed to stop: " ++ (ServiceLifecycle.stop env cfg).2)
           else if (ServiceLifecycle.start env cfg).1 = false then
             (false, "Failed to start: " ++ (ServiceLifecycle.start env cfg).2)
           else (true, "Restarted successfully"))) := by
  refine ⟨?_, ?_, ?_, ?_⟩
  · cases hcmd : cfg.lifecycle.start with
    | none =>
        have h := (runners_message_discipline env.startResult).2
        simpa [ServiceLifecycle.start, hcmd] using h
    | some c =>
        have h := (runners_message_discipline env.startResult).1
        simpa [ServiceLifecycle.start, hcmd] using h
  · cases hcmd : cfg.lifecycle.stop with
    | none =>
        have h := (runners_message_discipline env.stopResult).2
        simpa [ServiceLifecycle.stop, hcmd] using h
    | some c =>
        have h := (runners_message_discipline env.stopResult).1
        simpa [ServiceLifecycle.stop, hcmd] using h
  · intro c hcmd
    have h := (runners_message_discipline env.restartResult).1
    simpa [ServiceLifecycle.restart, hcmd] using h
  · intro hcmd
    by_cases hstop : (ServiceLifecycle.stop env cfg).1
    · by_cases hstart : (ServiceLifecycle.start env cfg).1 <;>
        simp [ServiceLifecycle.restart, hcmd, hstop, hstart]
    · have hstop' : (ServiceLifecycle.stop env cfg).1 = false := by
        simpa using hstop
      simp [ServiceLifecycle.restart, hcmd, hstop']

/-- Witness for C5 as amended, at a concrete environment whose start
command fails with empty stderr and stdout "warning": the failure
message is the stdout fallback, as the discipline requires. -/
theorem lifecycle_never_raises_message_discipline_w :
    ServiceLifecycle.start
        { startResult := ProcResult.completed 3 "warning" "",
          stopResult := ProcResult.completed 0 "" "",
          restartResult := ProcResult.completed 0 "" "" } baseConfig
      = (false, "warning") := by
  have h := (lifecycle_never_raises_message_discipline
    { startResult := ProcResult.completed 3 "warning" "",
      stopResult := ProcResult.completed 0 "" "",
      restartResult := ProcResult.completed 0 "" "" } baseConfig).1
  rcases h.2 (by rfl) with hcase | hcase | hcase | hcase
  · rcases hcase with ⟨rc, out, err, hco, hrc, hmsg⟩
    have hout : out = "warning" := by
      cases hco
      rfl
    have herr : err = "" := by
      cases hco
      rfl
    refine Prod.ext ?_ ?_
    · rfl
    · rw [hmsg, hout, herr]
      rfl
  · cases hcase.1
  · rcases hcase with ⟨m, hm, _⟩
    cases hm
  · rcases hcase with ⟨m, hm, _⟩
    cases hm

/-- Claim C10: for every id not in the Registry cache whose descriptor
file exists but fails to load, get propagates the load fault to the
caller and leaves the cache unchanged (an entry is cached only on a
successful parse); and get returns none only when the descriptor file
does not exist. -/
theorem get_propagates_parse_fault
    (fs : ServiceRegistry.Fs) (cache : ServiceRegistry.Cache) (name : String)
    (hc : alookup name cache = none) :
    (∀ yr m, ServiceRegistry.configFileAt fs name = some yr →
        yr.bind (fun d => ServiceRegistry.load_config d (fs.root.child name))
          = Except.error m →
        ServiceRegistry.get fs cache name = (Except.error m, cache))
    ∧ ((ServiceRegistry.get fs cache name).1 = Except.ok none →
        ServiceRegistry.configFileAt fs name = none) := by
  constructor
  · intro yr m hfile hload
    simp [ServiceRegistry.get, hc, hfile, hload]
  · intro hok
    cases hfile : ServiceRegistry.configFileAt fs name with
    | none => rfl
    | some yr =>
        cases hload : yr.bind
            (fun d => ServiceRegistry.load_config d (fs.root.child name)) with
        | ok cfg => simp [ServiceRegistry.get, hc, hfile, hload] at hok
        | error m => simp [ServiceRegistry.get, hc, hfile, hload] at hok

/-- Witness for C10 at a concrete registry: the descriptor of "svc"
parses to a mapping missing the required name field, so get raises the
KeyError and caches nothing, on an initially empty cache. -/
theorem get_propagates_parse_fault_w :
    ServiceRegistry.get
        { rootExists := true, root := ⟨["services"]⟩,
          entries := [{ name := "svc", isDir := true,
                        yaml := some (Except.ok {}) }] }
        [] "svc"
      = (Except.error "KeyError: name", []) := by
  have h := (get_propagates_parse_fault
    { rootExists := true, root := ⟨["services"]⟩,
      entries := [{ name := "svc", isDir := true,
                    yaml := some (Except.ok {}) }] }
    [] "svc" rfl).1 (Except.ok {}) "KeyError: name" rfl rfl
  exact h

theorem discoverGo_fst (root : FsPath) :
    ∀ (l : List ServiceRegistry.DirEntry) (acc : List ServiceConfig)
      (cache : ServiceRegistry.Cache),
      (ServiceRegistry.discoverGo root l acc cache).1
        = acc ++ l.filterMap (ServiceRegistry.entryConfig root)
  | [], acc, cache => by simp [ServiceRegistry.discoverGo]
  | e :: rest, acc, cache => by
      cases hl : ServiceRegistry.entryLoad root e with
      | none =>
          rw [show ServiceRegistry.discoverGo root (e :: rest) acc cache
              = ServiceRegistry.discoverGo root rest acc cache by
            simp [ServiceRegistry.discoverGo, hl]]
          rw [discoverGo_fst root rest acc cache]
          simp [ServiceRegistry.entryConfig, hl]
      | some r =>
          cases r with
          | error m =>
              rw [show ServiceRegistry.discoverGo root (e :: rest) acc cache
                  = ServiceRegistry.discoverGo root rest acc cache by
                simp [ServiceRegistry.discoverGo, hl]]
              rw [discoverGo_fst root rest acc cache]
              simp [ServiceRegistry.entryConfig, hl]
          | ok cfg =>
              rw [show ServiceRegistry.discoverGo root (e :: rest) acc cache
                  = ServiceRegistry.discoverGo root rest (acc ++ [cfg])
                      (aupsert cfg.dir_name cfg cache) by
                simp [ServiceRegistry.discoverGo, hl]]
              rw [discoverGo_fst root rest (acc ++ [cfg]) _]
              simp [ServiceRegistry.entryConfig, hl]

/-- getLast? of a cons defers to the tail when it is nonempty. -/
theorem getLast?_cons_eq {α : Type} :
    ∀ (t : List α) (a : α),
      (a :: t).getLast? =
        match t.getLast? with
        | some c => some c
        | none => some a
  | [], a => rfl
  | b :: t, a => by
      rw [List.getLast?_cons_cons]
      cases h : (b :: t).getLast? with
      | some c => rfl
      | none =>
          rw [List.getLast?_cons] at h
          cases h

theorem discoverGo_cache (root : FsPath) :
    ∀ (l : List ServiceRegistry.DirEntry) (acc : List ServiceConfig)
      (cache : ServiceRegistry.Cache) (k : String),
      alookup k (ServiceRegistry.discoverGo root l acc cache).2
        = match ((l.filterMap (ServiceRegistry.entryConfig root)).filter
            (fun c => c.dir_name = k)).getLast? with
          | some c => some c
          | none => alookup k cache
  | [], acc, cache, k => by simp [ServiceRegistry.discoverGo]
  | e :: rest, acc, cache, k => by
      cases hl : ServiceRegistry.entryLoad root e with
      | none =>
          rw [show ServiceRegistry.discoverGo root (e :: rest) acc cache
              = ServiceRegistry.discoverGo root rest acc cache by
            simp [ServiceRegistry.discoverGo, hl]]
          rw [discoverGo_cache root rest acc cache k]
          simp [ServiceRegistry.entryConfig, hl]
      | some r =>
          cases r with
          | error m =>
              rw [show ServiceRegistry.discoverGo root (e :: rest) acc cache
                  = ServiceRegistry.discoverGo root rest acc cache by
                simp [ServiceRegistry.discoverGo, hl]]
              rw [discoverGo_cache root rest acc cache k]
              simp [ServiceRegistry.entryConfig, hl]
          | ok cfg =>
              rw [show ServiceRegistry.discoverGo root (e :: rest) acc cache
                  = ServiceRegistry.discoverGo root rest (acc ++ [cfg])
                      (aupsert cfg.dir_name cfg cache) by
                simp [ServiceRegistry.discoverGo, hl]]
              rw [discoverGo_cache root rest (acc ++ [cfg]) _ k]
              simp only [ServiceRegistry.entryConfig, hl, List.filterMap_cons]
              by_cases hk : cfg.dir_name = k
              · have hfc : (cfg :: rest.filterMap (ServiceRegistry.entryConfig root)).filter
                    (fun c => c.dir_name = k)
                    = cfg :: (rest.filterMap (ServiceRegistry.entryConfig root)).filter
                        (fun c => c.dir_name = k) := by
                  simp [List.filter_cons, hk]
                rw [hfc, getLast?_cons_eq]
                cases hrest : ((rest.filterMap (ServiceRegistry.entryConfig root)).filter
                    (fun c => c.dir_name = k)).getLast? with
                | some c => simp
                | none =>
                    rw [hk] at *
                    simp [alookup_aupsert_self]
              · have hfc : (cfg :: rest.filterMap (ServiceRegistry.entryConfig root)).filter
                    (fun c => c.dir_name = k)
                    = (rest.filterMap (ServiceRegistry.entryConfig root)).filter
                        (fun c => c.dir_name = k) := by
                  simp [List.filter_cons, hk]
                rw [hfc, alookup_aupsert_ne _ _ hk]

/-- Claim C9 counterexample: with a cached id "old" whose directory no
longer exists, discover over an empty services root returns no
services but leaves "old" in the cache, and a subsequent get("old")
returns the stale config rather than none. -/
theorem discover_keeps_stale_cache_cex :
    (ServiceRegistry.discover
        { rootExists := true, root := ⟨["services"]⟩, entries := [] }
        [("old", baseConfig)]).1 = []
    ∧ (ServiceRegistry.discover
        { rootExists := true, root := ⟨["services"]⟩, entries := [] }
        [("old", baseConfig)]).2 = [("old", baseConfig)]
    ∧ (ServiceRegistry.get
        { rootExists := true, root := ⟨["services"]⟩, entries := [] }
        (ServiceRegistry.discover
          { rootExists := true, root := ⟨["services"]⟩, entries := [] }
          [("old", baseConfig)]).2
        "old").1 = Except.ok (some baseConfig) := by
  exact ⟨rfl, rfl, rfl⟩

/-- Claim C9 as amended: a discover call updates the cache by
upserting each returned config under its id — after the call, an id
discovered by the call maps to its (last) returned config, while every
other id keeps its prior cache value; in particular a stale id cached
earlier is NOT removed, and a subsequent get for it still returns the
stale config rather than none. -/
theorem discover_cache_upsert_only
    (fs : ServiceRegistry.Fs) (cache : ServiceRegistry.Cache) :
    (∀ k, alookup k (ServiceRegistry.discover fs cache).2
        = match (((ServiceRegistry.discover fs cache).1).filter
            (fun c => c.dir_name = k)).getLast? with
          | some c => some c
          | none => alookup k cache)
    ∧ (∀ k c, alookup k cache = some c →
        (∀ cfg ∈ (ServiceRegistry.discover fs cache).1, cfg.dir_name ≠ k) →
        (ServiceRegistry.get fs (ServiceRegistry.discover fs cache).2 k).1
          = Except.ok (some c)) := by
  have hmain : ∀ k, alookup k (ServiceRegistry.discover fs cache).2
      = match (((ServiceRegistry.discover fs cache).1).filter
          (fun c => c.dir_name = k)).getLast? with
        | some c => some c
        | none => alookup k cache := by
    intro k
    by_cases hroot : fs.rootExists
    · simp only [ServiceRegistry.discover, hroot, not_true, if_false]
      rw [discoverGo_cache fs.root (ServiceRegistry.sortEntries fs.entries) [] cache k]
      rw [discoverGo_fst fs.root (ServiceRegistry.sortEntries fs.entries) [] cache]
      simp
    · simp [ServiceRegistry.discover, hroot]
  refine ⟨hmain, ?_⟩
  intro k c hc hnone
  have hfilter : ((ServiceRegistry.discover fs cache).1).filter
      (fun cfg => cfg.dir_name = k) = [] := by
    rw [List.filter_eq_nil_iff]
    intro cfg hcfg
    simpa using hnone cfg hcfg
  have hlook : alookup k (ServiceRegistry.discover fs cache).2 = some c := by
    rw [hmain k, hfilter]
    simpa using hc
  simp [ServiceRegistry.get, hlook]

/-- Witness for C9 as amended at the concrete stale registry: the stale
id keeps its cached config across discover and get still returns it. -/
theorem discover_cache_upsert_only_w :
    alookup "old"
        (ServiceRegistry.discover
          { rootExists := true, root := ⟨["services"]⟩, entries := [] }
          [("old", baseConfig)]).2 = some baseConfig := by
  have h := (discover_cache_upsert_only
    { rootExists := true, root := ⟨["services"]⟩, entries := [] }
    [("old", baseConfig)]).1 "old"
  rw [h]
  rfl

theorem length_filterMap_eq_filter {α β : Type} (f : α → Option β) :
    ∀ l : List α, (l.filterMap f).length = (l.filter (fun a => (f a).isSome)).length
  | [] => rfl
  | a :: t => by
      cases h : f a with
      | none => simp [List.filterMap_cons, List.filter_cons, h,
          length_filterMap_eq_filter f t]
      | some b => simp [List.filterMap_cons, List.filter_cons, h,
          length_filterMap_eq_filter f t]

/-- Claim C6: for every services root that exists, discover returns
exactly the configs of the subdirectory entries holding a valid
descriptor, in the stable lexicographically sorted order discovery
scans (so one entry per valid subdirectory and zero per other entry);
its length is the number of valid entries, and every valid entry
contributes its config regardless of its siblings, so one parse
failure excludes only its own entry and never aborts the scan. -/
theorem discover_exactly_valid_entries
    (fs : ServiceRegistry.Fs) (cache : ServiceRegistry.Cache)
    (hroot : fs.rootExists = true) :
    (ServiceRegistry.discover fs cache).1
      = (ServiceRegistry.sortEntries fs.entries).filterMap
          (ServiceRegistry.entryConfig fs.root)
    ∧ (ServiceRegistry.discover fs cache).1.length
      = ((ServiceRegistry.sortEntries fs.entries).filter
          (fun e => (ServiceRegistry.entryConfig fs.root e).isSome)).length
    ∧ ∀ e ∈ fs.entries, ∀ cfg,
        ServiceRegistry.entryConfig fs.root e = some cfg →
        cfg ∈ (ServiceRegistry.discover fs cache).1 := by
  have h1 : (ServiceRegistry.discover fs cache).1
      = (ServiceRegistry.sortEntries fs.entries).filterMap
          (ServiceRegistry.entryConfig fs.root) := by
    simp only [ServiceRegistry.discover, hroot]
    rw [if_neg (by simp)]
    rw [discoverGo_fst fs.root (ServiceRegistry.sortEntries fs.entries) [] cache]
    rfl
  refine ⟨h1, ?_, ?_⟩
  · rw [h1]
    exact length_filterMap_eq_filter _ _
  · intro e he cfg hcfg
    rw [h1]
    refine List.mem_filterMap.mpr ⟨e, ?_, hcfg⟩
    exact (List.perm_insertionSort _ fs.entries).mem_iff.mpr he

/-- Witness for C6 at a concrete root holding, out of lexicographic
order, a valid service "e", a valid service "b", a service "a" whose
descriptor lacks the description field, a directory "c" without a
descriptor, and a plain file "d": discover returns exactly the two
valid configs, sorted. -/
theorem discover_exactly_valid_entries_w :
    (ServiceRegistry.discover
        { rootExists := true, root := ⟨["services"]⟩,
          entries :=
            [{ name := "e", isDir := true,
               yaml := some (Except.ok { name := some "E", description := some "eee" }) },
             { name := "b", isDir := true,
               yaml := some (Except.ok { name := some "B", description := some "bbb" }) },
             { name := "a", isDir := true,
               yaml := some (Except.ok { name := some "A" }) },
             { name := "c", isDir := true, yaml := none },
             { name := "d", isDir := false, yaml := none }] }
        []).1
      = [{ name := "B", description := "bbb", category := "optional",
           path := ⟨["services", "b"]⟩ },
         { name := "E", description := "eee", category := "optional",
           path := ⟨["services", "e"]⟩ }] := by
  have h := (discover_exactly_valid_entries
    { rootExists := true, root := ⟨["services"]⟩,
      entries :=
        [{ name := "e", isDir := true,
           yaml := some (Except.ok { name := some "E", description := some "eee" }) },
         { name := "b", isDir := true,
           yaml := some (Except.ok { name := some "B", description := some "bbb" }) },
         { name := "a", isDir := true,
           yaml := some (Except.ok { name := some "A" }) },
         { name := "c", isDir := true, yaml := none },
         { name := "d", isDir := false, yaml := none }] }
    [] rfl).1
  rw [h]
  rfl

/-! Round-trip development for the env-file reader and writer. -/

theorem dropWhile_eq_self_of_head {p : Char → Bool} :
    ∀ l : List Char, (∀ c, l.head? = some c → p c = false) → l.dropWhile p = l
  | [], _ => rfl
  | c :: t, h => by
      have hc : p c = false := h c rfl
      simp [List.dropWhile_cons, hc]

theorem head_not_of_dropWhile_eq {p : Char → Bool} {l : List Char}
    (h : l.dropWhile p = l) : ∀ c, l.head? = some c → p c = false := by
  intro c hc
  cases l with
  | nil => cases hc
  | cons a t =>
      have hac : a = c := by simpa using hc
      subst hac
      by_cases hp : p a
      · rw [List.dropWhile_cons, if_pos hp] at h
        have hle : (t.dropWhile p).length ≤ t.length :=
          (List.dropWhile_suffix p).sublist.length_le
        rw [h] at hle
        simp at hle
      · simpa using hp

theorem strip_parts_of_eq {l : List Char} (h : stripChars l = l) :
    l.dropWhile isPyWs = l ∧ l.reverse.dropWhile isPyWs = l.reverse := by
  have h1 : ((l.dropWhile isPyWs).reverse.dropWhile isPyWs).reverse = l := h
  have hblen : ((l.dropWhile isPyWs).reverse.dropWhile isPyWs).length = l.length := by
    have h2 := congrArg List.length h1
    simpa using h2
  have hble : ((l.dropWhile isPyWs).reverse.dropWhile isPyWs).length
      ≤ (l.dropWhile isPyWs).length := by
    have h3 := (List.dropWhile_suffix (l := (l.dropWhile isPyWs).reverse)
      isPyWs).sublist.length_le
    simpa using h3
  have hale : (l.dropWhile isPyWs).length ≤ l.length :=
    (List.dropWhile_suffix isPyWs).sublist.length_le
  have ha : l.dropWhile isPyWs = l :=
    (List.dropWhile_suffix isPyWs).eq_of_length (by omega)
  refine ⟨ha, ?_⟩
  rw [ha] at h1
  have h4 := congrArg List.reverse h1
  simpa using h4

theorem stripChars_eq_self_of {l : List Char}
    (hh : ∀ c, l.head? = some c → isPyWs c = false)
    (hl : ∀ c, l.getLast? = some c → isPyWs c = false) :
    stripChars l = l := by
  have h1 : l.dropWhile isPyWs = l := dropWhile_eq_self_of_head l hh
  have h2 : l.reverse.dropWhile isPyWs = l.reverse := by
    apply dropWhile_eq_self_of_head
    intro c hc
    rw [List.head?_reverse] at hc
    exact hl c hc
  unfold stripChars
  rw [h1, h2, List.reverse_reverse]

theorem takeWhile_until_sep :
    ∀ (kc ec : List Char), (∀ c ∈ kc, c ≠ '=') →
      (kc ++ '=' :: ec).takeWhile (fun c => c ≠ '=') = kc
  | [], ec, _ => by simp
  | c :: t, ec, h => by
      have hc : c ≠ '=' := h c (by simp)
      have ih := takeWhile_until_sep t ec (fun d hd => h d (by simp [hd]))
      simp only [List.cons_append, List.takeWhile_cons]
      rw [if_pos (show decide (c ≠ '=') = true by simp [hc])]
      exact congrArg _ ih

theorem dropWhile_until_sep :
    ∀ (kc ec : List Char), (∀ c ∈ kc, c ≠ '=') →
      (kc ++ '=' :: ec).dropWhile (fun c => c ≠ '=') = '=' :: ec
  | [], ec, _ => by simp
  | c :: t, ec, h => by
      have hc : c ≠ '=' := h c (by simp)
      have ih := dropWhile_until_sep t ec (fun d hd => h d (by simp [hd]))
      simp only [List.cons_append, List.dropWhile_cons]
      rw [if_pos (show decide (c ≠ '=') = true by simp [hc])]
      exact ih

/-- One written key=value line, processed by the loader, performs
exactly the dict assignment of the original pair. -/
theorem processLine_encode (env : List (String × String)) (k v : String)
    (hk : ConfigEditor.SafeKey k) (hv : ConfigEditor.SafeVal v) :
    ConfigEditor.processLine env (k ++ "=" ++ ConfigEditor.encodeValue v).data
      = aupsert k v env := by
  obtain ⟨hk0, hk1, hk2, hk3, hk4, hk5⟩ := hk
  have hkc : k.data ≠ [] := by
    intro h
    exact hk0 (String.ext h)
  have hstripk : stripChars k.data = k.data := congrArg String.data hk1
  have hpartsk := strip_parts_of_eq hstripk
  have hheadk := head_not_of_dropWhile_eq hpartsk.1
  have hlastk : ∀ c, k.data.getLast? = some c → isPyWs c = false := by
    intro c hc
    refine head_not_of_dropWhile_eq hpartsk.2 c ?_
    rwa [List.head?_reverse]
  have hdata : (k ++ "=" ++ ConfigEditor.encodeValue v).data
      = k.data ++ '=' :: (ConfigEditor.encodeValue v).data := by
    rw [String.data_append, String.data_append]
    rw [show ("=" : String).data = ['='] by decide]
    rw [List.append_assoc]
    rfl
  -- facts about the encoded value
  have hec : ∀ c, (ConfigEditor.encodeValue v).data.getLast? = some c → isPyWs c = false := by
    intro c hc
    by_cases hq : ConfigEditor.needsQuote v
    · rw [show (ConfigEditor.encodeValue v).data
          = ConfigEditor.dquoteChar :: v.data ++ [ConfigEditor.dquoteChar] by
        simp [ConfigEditor.encodeValue, hq]] at hc
      rw [show (ConfigEditor.dquoteChar :: v.data ++ [ConfigEditor.dquoteChar]).getLast?
          = some ConfigEditor.dquoteChar from List.getLast?_concat _] at hc
      cases hc
      decide
    · have hq' : ConfigEditor.needsQuote v = false := by simpa using hq
      obtain ⟨hstripv, _⟩ := hv.2.2 hq'
      have hstripv' : stripChars v.data = v.data := congrArg String.data hstripv
      have hpartsv := strip_parts_of_eq hstripv'
      rw [show (ConfigEditor.encodeValue v).data = v.data by
        simp [ConfigEditor.encodeValue, hq']] at hc
      refine head_not_of_dropWhile_eq hpartsv.2 c ?_
      rwa [List.head?_reverse]
  -- the whole line survives stripping
  obtain ⟨a, t, hat⟩ : ∃ a t, k.data = a :: t := by
    cases hkd : k.data with
    | nil => exact absurd hkd hkc
    | cons a t => exact ⟨a, t, rfl⟩
  have hstripL : stripChars (k.data ++ '=' :: (ConfigEditor.encodeValue v).data)
      = k.data ++ '=' :: (ConfigEditor.encodeValue v).data := by
    apply stripChars_eq_self_of
    · intro c hc
      rw [hat] at hc
      simp only [List.cons_append, List.head?_cons] at hc
      cases hc
      exact hheadk a (by rw [hat]; rfl)
    · intro c hc
      rw [List.getLast?_append_cons] at hc
      cases hecd : (ConfigEditor.encodeValue v).data with
      | nil =>
          rw [hecd] at hc
          have : c = '=' := by simpa using hc.symm
          subst this
          decide
      | cons b u =>
          rw [hecd, getLast?_cons_eq] at hc
          cases hcu : (b :: u).getLast? with
          | some d =>
              rw [hcu] at hc
              cases hc
              exact hec c (by rw [hecd]; exact hcu)
          | none =>
              rw [List.getLast?_cons] at hcu
              cases hcu
  have hkeyne : ∀ c ∈ k.data, c ≠ '=' := fun c hc he => hk2 (he ▸ hc)
  -- now run the loader on the line
  rw [hdata]
  unfold ConfigEditor.processLine
  rw [hstripL]
  rw [if_neg (by rw [hat]; simp)]
  rw [if_neg (by
    rw [hat]
    simp only [List.cons_append, List.head?_cons]
    intro hcon
    cases hcon
    exact hk5 (by rw [hat]; rfl))]
  rw [if_pos (by simp)]
  rw [takeWhile_until_sep _ _ hkeyne, dropWhile_until_sep _ _ hkeyne]
  simp only [List.drop_succ_cons, List.drop_zero]
  rw [hstripk]
  by_cases hq : ConfigEditor.needsQuote v
  · have hecd : (ConfigEditor.encodeValue v).data
        = ConfigEditor.dquoteChar :: v.data ++ [ConfigEditor.dquoteChar] := by
      simp [ConfigEditor.encodeValue, hq]
    rw [hecd]
    have hstripe : stripChars
        (ConfigEditor.dquoteChar :: v.data ++ [ConfigEditor.dquoteChar])
        = ConfigEditor.dquoteChar :: v.data ++ [ConfigEditor.dquoteChar] := by
      apply stripChars_eq_self_of
      · intro c hc
        simp only [List.cons_append, List.head?_cons] at hc
        cases hc
        decide
      · intro c hc
        rw [show (ConfigEditor.dquoteChar :: v.data ++ [ConfigEditor.dquoteChar]).getLast?
            = some ConfigEditor.dquoteChar from List.getLast?_concat _] at hc
        cases hc
        decide
    rw [hstripe]
    have hqp : ConfigEditor.hasQuotePair
        (ConfigEditor.dquoteChar :: v.data ++ [ConfigEditor.dquoteChar]) = true := by
      unfold ConfigEditor.hasQuotePair
      rw [show (ConfigEditor.dquoteChar :: v.data ++ [ConfigEditor.dquoteChar]).getLast?
          = some ConfigEditor.dquoteChar from List.getLast?_concat _]
      simp
    unfold ConfigEditor.stripQuotePair
    rw [if_pos hqp]
    simp only [List.cons_append, List.drop_succ_cons, List.drop_zero,
      List.dropLast_concat]
  · have hq' : ConfigEditor.needsQuote v = false := by simpa using hq
    obtain ⟨hstripv, hqpv⟩ := hv.2.2 hq'
    have hecd : (ConfigEditor.encodeValue v).data = v.data := by
      simp [ConfigEditor.encodeValue, hq']
    rw [hecd]
    have hstripv2 : stripChars v.data = v.data := congrArg String.data hstripv
    rw [hstripv2]
    unfold ConfigEditor.stripQuotePair
    rw [if_neg (by simp [hqpv])]

theorem splitLinesChars_cons_other (c : Char) (rest acc : List Char)
    (h1 : c ≠ '\n') (h2 : c ≠ '\r') :
    ConfigEditor.splitLinesChars (c :: rest) acc
      = ConfigEditor.splitLinesChars rest (c :: acc) := by
  simp [ConfigEditor.splitLinesChars, h1, h2]

theorem splitLinesChars_clean :
    ∀ (line : List Char), (∀ c ∈ line, c ≠ '\n' ∧ c ≠ '\r') →
      ∀ (rest acc : List Char),
        ConfigEditor.splitLinesChars (line ++ '\n' :: rest) acc
          = (acc.reverse ++ line) :: ConfigEditor.splitLinesChars rest []
  | [], _, rest, acc => by simp [ConfigEditor.splitLinesChars]
  | c :: cs, h, rest, acc => by
      have hc := h c (by simp)
      have ih := splitLinesChars_clean cs (fun d hd => h d (by simp [hd])) rest (c :: acc)
      rw [List.cons_append, splitLinesChars_cons_other c _ acc hc.1 hc.2, ih]
      simp

/-- The character content of one written line. -/
theorem line_data_eq (k v : String) :
    (k ++ "=" ++ ConfigEditor.encodeValue v).data
      = k.data ++ '=' :: (ConfigEditor.encodeValue v).data := by
  rw [String.data_append, String.data_append]
  rw [show ("=" : String).data = ['='] by decide]
  rw [List.append_assoc]
  rfl

/-- Splitting the written file content recovers the written lines (plus
one final empty line from the trailing newline). -/
theorem splitLines_joinNl :
    ∀ lines : List String, lines ≠ [] →
      (∀ s ∈ lines, ∀ c ∈ s.data, c ≠ '\n' ∧ c ≠ '\r') →
      ConfigEditor.splitLinesChars (ConfigEditor.joinNl lines ++ "\n").data []
        = lines.map String.data ++ [[]]
  | [], hne, _ => absurd rfl hne
  | [a], _, hclean => by
      have hdata : (ConfigEditor.joinNl [a] ++ "\n").data = a.data ++ '\n' :: [] := by
        rw [String.data_append]
        rw [show ("\n" : String).data = ['\n'] by decide]
        rfl
      rw [hdata, splitLinesChars_clean a.data (hclean a (by simp)) [] []]
      simp [ConfigEditor.splitLinesChars]
  | a :: b :: t, _, hclean => by
      have ih := splitLines_joinNl (b :: t) (by simp)
        (fun s hs => hclean s (by simp [List.mem_cons] at hs ⊢; tauto))
      have hdata : (ConfigEditor.joinNl (a :: b :: t) ++ "\n").data
          = a.data ++ '\n' :: (ConfigEditor.joinNl (b :: t) ++ "\n").data := by
        rw [show ConfigEditor.joinNl (a :: b :: t)
            = a ++ "\n" ++ ConfigEditor.joinNl (b :: t) from rfl]
        rw [String.data_append, String.data_append, String.data_append]
        rw [show ("\n" : String).data = ['\n'] by decide]
        simp
      rw [hdata, splitLinesChars_clean a.data (hclean a (by simp)) _ [], ih]
      simp

/-- Processing an empty line leaves the dict unchanged. -/
theorem processLine_nil (env : List (String × String)) :
    ConfigEditor.processLine env [] = env := rfl

theorem foldl_processLine_encode :
    ∀ (pairs : List (String × String)) (env : List (String × String)),
      (∀ p ∈ pairs, ConfigEditor.SafeKey p.1 ∧ ConfigEditor.SafeVal p.2) →
      (pairs.map (fun p => (p.1 ++ "=" ++ ConfigEditor.encodeValue p.2).data)).foldl
          ConfigEditor.processLine env
        = pairs.foldl (fun acc p => aupsert p.1 p.2 acc) env
  | [], env, _ => rfl
  | p :: t, env, hsafe => by
      have hp := hsafe p (by simp)
      have ih := foldl_processLine_encode t (aupsert p.1 p.2 env)
        (fun q hq => hsafe q (by simp [hq]))
      simp only [List.map_cons, List.foldl_cons]
      rw [processLine_encode env p.1 p.2 hp.1 hp.2]
      exact ih

/-- Every character of a written line is a plain character, never a
line break. -/
theorem line_data_clean (k v : String)
    (hk : ConfigEditor.SafeKey k) (hv : ConfigEditor.SafeVal v) :
    ∀ c ∈ (k ++ "=" ++ ConfigEditor.encodeValue v).data, c ≠ '\n' ∧ c ≠ '\r' := by
  intro c hc
  rw [line_data_eq] at hc
  rcases List.mem_append.mp hc with hck | hce
  · constructor
    · intro he
      exact hk.2.2.2.1 (he ▸ hck)
    · intro he
      exact hk.2.2.2.2.1 (he ▸ hck)
  · rcases List.mem_cons.mp hce with hce | hce
    · subst hce
      exact ⟨by decide, by decide⟩
    · have hcv : c ∈ v.data ∨ c = ConfigEditor.dquoteChar := by
        by_cases hq : ConfigEditor.needsQuote v
        · rw [show (ConfigEditor.encodeValue v).data
              = ConfigEditor.dquoteChar :: v.data ++ [ConfigEditor.dquoteChar] by
            simp [ConfigEditor.encodeValue, hq]] at hce
          rcases List.mem_cons.mp hce with h1 | h1
          · exact Or.inr h1
          · rcases List.mem_append.mp h1 with h2 | h2
            · exact Or.inl h2
            · exact Or.inr (by simpa using h2)
        · rw [show (ConfigEditor.encodeValue v).data = v.data by
            simp [ConfigEditor.encodeValue, hq]] at hce
          exact Or.inl hce
      rcases hcv with hcv | hcv
      · constructor
        · intro he
          exact hv.1 (he ▸ hcv)
        · intro he
          exact hv.2.1 (he ▸ hcv)
      · subst hcv
        exact ⟨by decide, by decide⟩

/-- Claim C7 counterexample: the writer leaves a single-quote-wrapped
value unquoted (single quotes trigger no quoting) and the reader then
strips the quote pair, so a value containing quote characters is not
preserved by the round trip. -/
theorem env_roundtrip_squote_cex :
    ConfigEditor.load_env_file (ConfigEditor.save_env_file
        [("A", String.mk [ConfigEditor.squoteChar, 'x', ConfigEditor.squoteChar])])
      = [("A", "x")]
    ∧ String.mk [ConfigEditor.squoteChar, 'x', ConfigEditor.squoteChar] ≠ "x" := by
  exact ⟨by decide, by decide⟩

/-- Claim C7 as amended: writing a finite map with the env-file writer
and re-reading it yields the identical map, for maps in canonical
sorted form whose keys are plain (nonempty, strip-invariant, free of
the separator, of line breaks and of a leading comment mark) and whose
values contain no line breaks and, when written unquoted, are
strip-invariant and not quote-wrapped; values containing spaces or
double-quote characters are preserved exactly via the quoting rules. -/
theorem env_file_roundtrip (l : List (String × String))
    (hsorted : l.Pairwise (fun a b => pyStrLe a.1 b.1 = true))
    (hkeys : (l.map Prod.fst).Nodup)
    (hsafe : ∀ p ∈ l, ConfigEditor.SafeKey p.1 ∧ ConfigEditor.SafeVal p.2) :
    ConfigEditor.load_env_file (ConfigEditor.save_env_file l) = l := by
  have hsp : ConfigEditor.sortPairs l = l := List.Sorted.insertionSort_eq hsorted
  unfold ConfigEditor.load_env_file ConfigEditor.save_env_file
  rw [hsp]
  cases l with
  | nil => decide
  | cons p t =>
      have hsplit := splitLines_joinNl
        ((p :: t).map (fun kv => kv.1 ++ "=" ++ ConfigEditor.encodeValue kv.2))
        (by simp)
        (by
          intro s hs
          rcases List.mem_map.mp hs with ⟨q, hq, hqs⟩
          have hsq := hsafe q hq
          intro c hc
          exact line_data_clean q.1 q.2 hsq.1 hsq.2 c (by rw [hqs]; exact hc))
      rw [hsplit, List.foldl_append, List.map_map]
      have hfold := foldl_processLine_encode (p :: t) [] hsafe
      have hcomp : (p :: t).map
            (String.data ∘ fun kv => kv.1 ++ "=" ++ ConfigEditor.encodeValue kv.2)
          = (p :: t).map (fun q => (q.1 ++ "=" ++ ConfigEditor.encodeValue q.2).data) := by
        simp [Function.comp]
      rw [hcomp, hfold]
      rw [foldl_aupsert_map Prod.fst Prod.snd (p :: t) [] (fun _ _ => rfl) hkeys]
      simp only [List.nil_append, List.foldl_cons, List.foldl_nil, processLine_nil]
      simp

/-- Witness for C7 as amended at a concrete map holding a value with
spaces and a value with double quotes: both are preserved exactly. -/
theorem env_file_roundtrip_w :
    ConfigEditor.load_env_file (ConfigEditor.save_env_file
        [("API_KEY", "a value with spaces"),
         ("QUOTED", String.mk ['s', 'a', 'y', ' ', ConfigEditor.dquoteChar, 'h',
           'i', ConfigEditor.dquoteChar])])
      = [("API_KEY", "a value with spaces"),
         ("QUOTED", String.mk ['s', 'a', 'y', ' ', ConfigEditor.dquoteChar, 'h',
           'i', ConfigEditor.dquoteChar])] := by
  exact env_file_roundtrip _ (by decide) (by decide) (by decide)

end Toolset
